import Mathlib

set_option maxHeartbeats 4000000
set_option maxRecDepth 4000

/-!
Verification development for the incremental batch classification and merge
engine of `paper_search_classify.py`.

The Python source is embedded shallowly:

* `Paper` / `CResult` mirror the `Paper` and `ClassificationResult`
  dataclasses (fields kept, machine strings as `String`);
* `Json` is the value model of what `json.loads` returns, with integer
  numbers only (floating point literals are outside the modelled domain);
* `jsonParse` is an executable recursive-descent model of `json.loads`
  (object member lookup is last-occurrence-wins, as for a Python dict
  built from a JSON text with duplicate keys);
* `extractJsonGreedy` models `re.search(r'\x7b[\s\S]*\x7d', text)`:
  the span from the first opening brace to the last closing brace;
* `parseClassificationResult` models `_parse_classification_result`;
* `mergeOne` / `mergeResults` model `_merge_results` at the value level;
* a second, store-passing model (`mergeResultsH`, `classifyPapers`)
  makes the in-place mutation of `ClassificationResult.papers` explicit,
  which is what the orchestrator `OpenAIProvider.classify_papers`
  actually does to a caller-supplied `existing_categories` list.
-/

/-- The `Paper` dataclass of the source: title, abstract and venue are
required strings, the remaining fields optional. -/
structure Paper where
  title : String
  abstract : String
  venue : String
  paper_id : Option String := none
  authors : Option (List String) := none
  keywords : Option (List String) := none
  pdf_url : Option String := none
  forum_url : Option String := none
deriving DecidableEq, Repr

/-- The `ClassificationResult` dataclass of the source: a category name,
its member papers, and a summary text. -/
structure CResult where
  category : String
  papers : List Paper
  summary : String
deriving DecidableEq, Repr

/-- JSON values as produced by `json.loads`, restricted to integer
numbers (floating point is outside the modelled domain).  Objects keep
their member list as parsed; lookups are last-occurrence-wins. -/
inductive Json where
  | null : Json
  | bool (b : Bool) : Json
  | num (n : Int) : Json
  | str (s : String) : Json
  | arr (xs : List Json) : Json
  | obj (fields : List (String × Json)) : Json

/-- The opening-brace character, written via its code point. -/
def lbrace : Char := Char.ofNat 123

/-- The closing-brace character, written via its code point. -/
def rbrace : Char := Char.ofNat 125

/-- Python-dict member lookup on a parsed JSON object: the value of the
last occurrence of the key, as `json.loads` overwrites duplicates. -/
def jGet (fields : List (String × Json)) (k : String) : Option Json :=
  fields.foldl (fun acc kv => if kv.1 = k then some kv.2 else acc) none

/-- Skip JSON whitespace (space, tab, newline, carriage return). -/
def skipWs : List Char → List Char
  | c :: cs =>
    if c = ' ' ∨ c = '\t' ∨ c = '\n' ∨ c = '\r' then skipWs cs else c :: cs
  | [] => []

/-- Parse the remainder of a JSON string literal (the opening quote has
been consumed); handles the single-character escapes.  `\u` escapes are
outside the modelled domain. -/
def pString : List Char → Option (String × List Char)
  | [] => none
  | c :: cs =>
    if c = '"' then some ("", cs)
    else if c = '\\' then
      match cs with
      | e :: cs' =>
        let esc : Option Char :=
          if e = '"' then some '"'
          else if e = '\\' then some '\\'
          else if e = '/' then some '/'
          else if e = 'n' then some '\n'
          else if e = 't' then some '\t'
          else if e = 'r' then some '\r'
          else if e = 'b' then some (Char.ofNat 8)
          else if e = 'f' then some (Char.ofNat 12)
          else none
        match esc with
        | some ch =>
          match pString cs' with
          | some (s, r) => some (String.mk (ch :: s.data), r)
          | none => none
        | none => none
      | [] => none
    else
      match pString cs with
      | some (s, r) => some (String.mk (c :: s.data), r)
      | none => none

/-- Decimal digits to a natural number accumulator. -/
def digitsToNat : List Char → Nat → Nat
  | [], acc => acc
  | c :: cs, acc => digitsToNat cs (acc * 10 + (c.toNat - 48))

/-- Parse a JSON integer literal; JSON forbids leading zeros, and a
following `.`, `e` or `E` (a float literal) is outside the modelled
domain and rejected. -/
def pNum (cs : List Char) : Option (Int × List Char) :=
  let (neg, cs1) :=
    match cs with
    | c :: rest => if c = '-' then (true, rest) else (false, cs)
    | [] => (false, cs)
  let ds := cs1.takeWhile Char.isDigit
  let rest := cs1.dropWhile Char.isDigit
  if ds.isEmpty then none
  else if 1 < ds.length ∧ ds.head? = some '0' then none
  else
    let bad : Bool :=
      match rest with
      | c :: _ => c = '.' || c = 'e' || c = 'E'
      | [] => false
    if bad then none
    else
      let n : Int := digitsToNat ds 0
      some (if neg then -n else n, rest)

mutual

/-- Parse one JSON value; fuel-indexed recursive descent. -/
def pVal : Nat → List Char → Option (Json × List Char)
  | 0, _ => none
  | f + 1, cs =>
    match skipWs cs with
    | [] => none
    | c :: rest =>
      if c = lbrace then pObj f rest
      else if c = '[' then pArr f rest
      else if c = '"' then
        match pString rest with
        | some (s, r) => some (.str s, r)
        | none => none
      else if c = 't' then
        match rest with
        | 'r' :: 'u' :: 'e' :: r => some (.bool true, r)
        | _ => none
      else if c = 'f' then
        match rest with
        | 'a' :: 'l' :: 's' :: 'e' :: r => some (.bool false, r)
        | _ => none
      else if c = 'n' then
        match rest with
        | 'u' :: 'l' :: 'l' :: r => some (.null, r)
        | _ => none
      else
        match pNum (c :: rest) with
        | some (n, r) => some (.num n, r)
        | none => none

/-- Parse an array body (the opening bracket has been consumed). -/
def pArr : Nat → List Char → Option (Json × List Char)
  | 0, _ => none
  | f + 1, cs =>
    match skipWs cs with
    | c :: rest =>
      if c = ']' then some (.arr [], rest)
      else
        match pElems f cs with
        | some (vs, r) => some (.arr vs, r)
        | none => none
    | [] => none

/-- Parse one or more comma-separated array elements up to `]`. -/
def pElems : Nat → List Char → Option (List Json × List Char)
  | 0, _ => none
  | f + 1, cs =>
    match pVal f cs with
    | some (v, r) =>
      match skipWs r with
      | c :: rest =>
        if c = ',' then
          match pElems f rest with
          | some (vs, r2) => some (v :: vs, r2)
          | none => none
        else if c = ']' then some ([v], rest)
        else none
      | [] => none
    | none => none

/-- Parse an object body (the opening brace has been consumed). -/
def pObj : Nat → List Char → Option (Json × List Char)
  | 0, _ => none
  | f + 1, cs =>
    match skipWs cs with
    | c :: rest =>
      if c = rbrace then some (.obj [], rest)
      else
        match pMembers f cs with
        | some (ms, r) => some (.obj ms, r)
        | none => none
    | [] => none

/-- Parse one or more comma-separated `"key": value` members up to the
closing brace. -/
def pMembers : Nat → List Char → Option (List (String × Json) × List Char)
  | 0, _ => none
  | f + 1, cs =>
    match skipWs cs with
    | c :: rest =>
      if c = '"' then
        match pString rest with
        | some (k, r) =>
          match skipWs r with
          | c2 :: r2 =>
            if c2 = ':' then
              match pVal f r2 with
              | some (v, r3) =>
                match skipWs r3 with
                | c3 :: r4 =>
                  if c3 = ',' then
                    match pMembers f r4 with
                    | some (ms, r5) => some ((k, v) :: ms, r5)
                    | none => none
                  else if c3 = rbrace then some ([(k, v)], r4)
                  else none
                | [] => none
              | none => none
            else none
          | [] => none
        | none => none
      else none
    | [] => none

end

/-- Model of `json.loads`: parse one JSON value and require only
whitespace to follow (Python raises on extra data). -/
def jsonParse (s : String) : Option Json :=
  match pVal (4 * s.length + 8) s.data with
  | some (v, rest) => if skipWs rest = [] then some v else none
  | none => none


/-- Model of `re.search(r'\x7b[\s\S]*\x7d', response_text)` followed by
`.group()`: the greedy match spans from the first opening brace to the
last closing brace of the whole text, provided the latter comes after
the former.  (This is NOT the first balanced brace-matched substring.) -/
def extractJsonGreedy (s : String) : Option String :=
  match s.data.findIdx? (fun c => c = lbrace) with
  | none => none
  | some i =>
    match s.data.reverse.findIdx? (fun c => c = rbrace) with
    | none => none
    | some k =>
      let j := s.data.length - 1 - k
      if i < j then some (String.mk ((s.data.drop i).take (j - i + 1))) else none

/-- Modelled from the spec: locate the first balanced, brace-matched
top-level JSON object substring ("locate the first balanced top-level
JSON object substring (brace-matched)").  Used only to compare the
spec's contract with the code's greedy extraction. -/
def balancedScan : List Char → Nat → List Char → Option (List Char)
  | [], _, _ => none
  | c :: cs, depth, acc =>
    if c = lbrace then balancedScan cs (depth + 1) (c :: acc)
    else if c = rbrace then
      if depth = 1 then some (c :: acc).reverse
      else balancedScan cs (depth - 1) (c :: acc)
    else balancedScan cs depth (c :: acc)

/-- Modelled from the spec: the first balanced brace-matched substring
of the text, starting at the first opening brace. -/
def extractBalancedSpec (s : String) : Option String :=
  (balancedScan (s.data.dropWhile (fun c => ¬ c = lbrace)) 0 []).map String.mk

/-- Failure cases of `_parse_classification_result`: `noJson` is the
`ValueError` for no extractable JSON, `badJson` the `ValueError` for
invalid JSON text, and `illTyped` stands for the `TypeError` or
`AttributeError` Python raises when a present field has an unusable
type (e.g. `paper_indices` not a list). -/
inductive PErr where
  | noJson : PErr
  | badJson : PErr
  | illTyped : PErr
deriving DecidableEq, Repr

/-- Resolve the `name` field: `cat.get("name", "未命名类别")` — the default
applies only when the key is absent; a present value is kept as is (a
present non-string name, which Python would carry along untyped, is
outside the modelled domain). -/
def getName (fields : List (String × Json)) : Except PErr String :=
  match jGet fields "name" with
  | none => .ok "未命名类别"
  | some (.str s) => .ok s
  | some _ => .error .illTyped

/-- Resolve the `paper_indices` field: `cat.get("paper_indices", [])` —
absent defaults to the empty list; a present non-list value makes the
subsequent `for` loop raise in Python. -/
def getIndices (fields : List (String × Json)) : Except PErr (List Json) :=
  match jGet fields "paper_indices" with
  | none => .ok []
  | some (.arr xs) => .ok xs
  | some _ => .error .illTyped

/-- Resolve the `summary` field: `cat.get("summary", "")` — absent
defaults to the empty string (a present non-string summary is outside
the modelled domain). -/
def getSummary (fields : List (String × Json)) : Except PErr String :=
  match jGet fields "summary" with
  | none => .ok ""
  | some (.str s) => .ok s
  | some _ => .error .illTyped

/-- One JSON index value as a Python integer: numbers are themselves,
booleans compare as 0/1 in Python; any other type makes the comparison
`0 < idx` raise a `TypeError`. -/
def jIdxInt : Json → Option Int
  | .num n => some n
  | .bool b => some (if b then 1 else 0)
  | _ => none

/-- The comprehension
`[papers[idx - 1] for idx in paper_indices if 0 < idx <= len(papers)]`:
keep indices inside `(0, len]`, map each to the `idx - 1`-th paper,
preserving order; a non-integer index raises. -/
def selectPapers : List Json → List Paper → Except PErr (List Paper)
  | [], _ => .ok []
  | j :: js, papers =>
    match jIdxInt j with
    | some i =>
      match selectPapers js papers with
      | .ok rest =>
        if h : 0 < i ∧ i ≤ (papers.length : Int) then
          .ok (papers.get ⟨(i - 1).toNat, by omega⟩ :: rest)
        else
          .ok rest
      | .error e => .error e
    | none => .error .illTyped

/-- One iteration of the `for cat in result_data.get("categories", [])`
loop body: resolve the fields (the `is_existing` value is read into an
unused variable and has no effect) and build a `ClassificationResult`. -/
def parseEntry (cat : Json) (papers : List Paper) : Except PErr CResult :=
  match cat with
  | .obj fields =>
    match getName fields with
    | .error e => .error e
    | .ok category_name =>
      match getIndices fields with
      | .error e => .error e
      | .ok paper_indices =>
        match getSummary fields with
        | .error e => .error e
        | .ok summary =>
          match selectPapers paper_indices papers with
          | .error e => .error e
          | .ok category_papers =>
            .ok ⟨category_name, category_papers, summary⟩
  | _ => .error .illTyped

/-- The whole `for cat in ...: results.append(...)` loop, in order of
appearance in the parsed JSON. -/
def parseEntries : List Json → List Paper → Except PErr (List CResult)
  | [], _ => .ok []
  | c :: cs, papers =>
    match parseEntry c papers with
    | .error e => .error e
    | .ok r =>
      match parseEntries cs papers with
      | .error e => .error e
      | .ok rs => .ok (r :: rs)

/-- Model of `OpenAIProvider._parse_classification_result`: extract the greedy
brace span, run it through `json.loads`, read `categories` (defaulting
to the empty list when absent), and build the result list. -/
def parseClassificationResult (response_text : String) (papers : List Paper) :
    Except PErr (List CResult) :=
  match extractJsonGreedy response_text with
  | none => .error .noJson
  | some s =>
    match jsonParse s with
    | none => .error .badJson
    | some (.obj fields) =>
      match jGet fields "categories" with
      | none => parseEntries [] papers
      | some (.arr cats) => parseEntries cats papers
      | some _ => .error .illTyped
    | some _ => .error .illTyped

/-- The inner scan of `_merge_results` for one batch category: find the
first accumulated category with exactly the same (case-sensitive) name;
extend its papers in place; if none matches, append the new category at
the end. -/
def mergeOne : List CResult → CResult → List CResult
  | [], bc => [bc]
  | c :: cs, bc =>
    if c.category = bc.category then
      { c with papers := c.papers ++ bc.papers } :: cs
    else
      c :: mergeOne cs bc

/-- Model of `OpenAIProvider._merge_results` at the value level: fold the batch
categories, in order, into the accumulated list. -/
def mergeResults (existing_results batch_results : List CResult) : List CResult :=
  batch_results.foldl mergeOne existing_results

/-- Modelled from the spec's §4.4 wording: "iterate the new tuples in
order; for each, scan existing Categories for an exact `name` match
(first match wins, scan order = accumulation order); if found, append
the tuple's records to that Category's `members` in order; if not
found, create a new Category with that `name`, `members = records`,
`description = summary`, and append it to the end".  Stated over
`(name, records, summary)` tuples to be compared with `mergeResults`. -/
def mergeSpecStep (st : List CResult) (t : String × List Paper × String) : List CResult :=
  match st.findIdx? (fun c => c.category = t.1) with
  | some i =>
    match st.get? i with
    | some c => st.set i { c with papers := c.papers ++ t.2.1 }
    | none => st
  | none => st ++ [⟨t.1, t.2.1, t.2.2⟩]

/-- Modelled from the spec's §4.4 wording: the left fold
`merge(state, batchTuples) -> state'` over the tuples. -/
def mergeSpec (st : List CResult) (ts : List (String × List Paper × String)) : List CResult :=
  ts.foldl mergeSpecStep st

/-- Python floor-division slice semantics of `l[a:b]` (step 1):
negative bounds count from the end, then both are clamped to `[0, n]`. -/
def pySlice {α : Type} (l : List α) (a b : Int) : List α :=
  let n : Int := l.length
  let a' := (if a < 0 then max (n + a) 0 else min a n).toNat
  let b' := (if b < 0 then max (n + b) 0 else min b n).toNat
  (l.take b').drop a'

/-- The batch planner of `classify_papers` (lines 78-86): `batch_count =
(len(papers) + batch_size - 1) // batch_size` with Python floor
division (raising `ZeroDivisionError` when `batch_size == 0`), then the
slices `papers[idx*b : min(idx*b + b, len(papers))]` for `idx` in
`range(batch_count)` (an empty range when `batch_count <= 0`). -/
def batchPlan (papers : List Paper) (batchSize : Int) :
    Except Unit (List (List Paper)) :=
  if batchSize = 0 then .error ()
  else
    let n : Int := papers.length
    let batchCount : Int := (n + batchSize - 1).fdiv batchSize
    .ok ((List.range batchCount.toNat).map (fun (idx : Nat) =>
      let start : Int := Int.ofNat idx * batchSize
      pySlice papers start (min (start + batchSize) n)))

/-- The heap of live `ClassificationResult` objects: Python's
`ClassificationResult` instances are mutable, and
`merged[i].papers.extend(...)` mutates them in place.  An address is an
index into this store; the accumulated list and a caller's
`existing_categories` list hold addresses, so they alias. -/
abbrev Store := List CResult

/-- Model of `_merge_results` at the object level: scan the accumulated address
list for the first whose object has the batch category's name; on a
match, mutate that object's `papers` in place (visible through every
alias); otherwise allocate the new category at the end of the store and
append its address. -/
def mergeOneH (sm : Store × List Nat) (bc : CResult) : Store × List Nat :=
  let store := sm.1
  let merged := sm.2
  match merged.find? (fun r =>
      match store.get? r with
      | some c => c.category = bc.category
      | none => false) with
  | some r =>
    match store.get? r with
    | some c => (store.set r { c with papers := c.papers ++ bc.papers }, merged)
    | none => (store, merged)
  | none => (store ++ [bc], merged ++ [store.length])

/-- Model of `_merge_results` at the object level: `merged = existing_results[:]`
copies only the list of addresses, then the batch categories are folded
in. -/
def mergeResultsH (store : Store) (existing : List Nat) (batch : List CResult) :
    Store × List Nat :=
  batch.foldl mergeOneH (store, existing)

/-- Run-level failures of `classify_papers`: the `ZeroDivisionError`
from the batch-count computation, a Completion Client failure, or a
Parser failure; the latter two are reported together with the index of
the failing batch (the index the code prints before re-raising). -/
inductive RunErr where
  | zeroDiv : RunErr
  | transport (batchIdx : Nat) (msg : String) : RunErr
  | parseFail (batchIdx : Nat) (e : PErr) : RunErr
deriving DecidableEq, Repr

/-- The `for batch_idx in range(batch_count)` loop of `classify_papers`:
for each planned batch, ask the Completion Client for text, parse it
against the batch, and merge; the first exception aborts the run with
that batch's index.  The store is threaded through because merging
mutates it. -/
def classifyLoop (respond : Nat → Except String String) :
    List (Nat × List Paper) → Store → List Nat → Store × Except RunErr (List Nat)
  | [], store, acc => (store, .ok acc)
  | (idx, batch) :: rest, store, acc =>
    match respond idx with
    | .error msg => (store, .error (.transport idx msg))
    | .ok text =>
      match parseClassificationResult text batch with
      | .error e => (store, .error (.parseFail idx e))
      | .ok batch_results =>
        let sm := mergeResultsH store acc batch_results
        classifyLoop respond rest sm.1 sm.2

/-- Model of `OpenAIProvider.classify_papers`: an empty paper list returns the
empty result list at once (before any planning or backend call); the
accumulated list starts as a shallow copy of the caller's
`existing_categories` (the same addresses), and the batches run
strictly sequentially. -/
def classifyPapers (respond : Nat → Except String String) (papers : List Paper)
    (batchSize : Int) (store : Store) (seed : List Nat) :
    Store × Except RunErr (List Nat) :=
  if papers.isEmpty then (store, .ok [])
  else
    match batchPlan papers batchSize with
    | .error _ => (store, .error .zeroDiv)
    | .ok batches => classifyLoop respond batches.enum store seed

/-- The engine proper — the parse-then-merge composition of
`_parse_classification_result` and `_merge_results` threaded over a
run's batches, each batch given with the `categories` array of its
completion's parsed JSON. -/
def engineRun (state : List CResult) :
    List (List Paper × List Json) → Except PErr (List CResult)
  | [] => .ok state
  | (batch, cats) :: rest =>
    match parseEntries cats batch with
    | .error e => .error e
    | .ok rs => engineRun (mergeResults state rs) rest

/-- Total number of occurrences of one paper across all members of an
accumulated state. -/
def memCount (p : Paper) (state : List CResult) : Nat :=
  (state.map CResult.papers).flatten.count p

/-- Number of in-range index references resolving to `p` in one batch's
parsed entries (0 when the entries fail to parse). -/
def refCount (p : Paper) (batch : List Paper) (cats : List Json) : Nat :=
  match parseEntries cats batch with
  | .ok rs => (rs.map CResult.papers).flatten.count p
  | .error _ => 0

/-- Number of in-range index references resolving to `p` across a whole
run. -/
def assignedCount (p : Paper) (runs : List (List Paper × List Json)) : Nat :=
  (runs.map (fun r => refCount p r.1 r.2)).sum

/-- Replace the value of every `is_existing` member of one parsed entry
object (entries without the field, and non-object entries, are left
unchanged). -/
def setIsExisting (v : Json) : Json → Json
  | .obj fields =>
    .obj (fields.map (fun kv => if kv.1 = "is_existing" then (kv.1, v) else kv))
  | j => j

/-- Alter the `is_existing` value of every entry of a `categories`
array, each by its own replacement value. -/
def alterIsExisting : (Nat → Json) → List Json → List Json
  | _, [] => []
  | f, c :: cs => setIsExisting (f 0) c :: alterIsExisting (fun i => f (i + 1)) cs

/-- A concrete paper used by witnesses and counterexamples. -/
def mkPaper (t : String) : Paper :=
  { title := t, abstract := "b", venue := "v" }

/-- A successful batch step: the Completion Client answered and the
Parser accepted the answer for this batch. -/
def batchOk (respond : Nat → Except String String) (pr : Nat × List Paper) : Prop :=
  ∃ text rs, respond pr.1 = .ok text ∧ parseClassificationResult text pr.2 = .ok rs

/-- The two kinds of per-batch failure: a Completion Client error, or a
Parser error on the returned text. -/
inductive BatchFail where
  | transport (msg : String) : BatchFail
  | parseF (e : PErr) : BatchFail

/-- The given batch fails in the given way. -/
def failsAt (respond : Nat → Except String String) (idx : Nat) (batch : List Paper) :
    BatchFail → Prop
  | .transport msg => respond idx = .error msg
  | .parseF e =>
    ∃ text, respond idx = .ok text ∧ parseClassificationResult text batch = .error e

/-- The run-level error a batch failure is reported as, tagged with the
failing batch's index. -/
def toRunErr (idx : Nat) : BatchFail → RunErr
  | .transport msg => .transport idx msg
  | .parseF e => .parseFail idx e

/-! Concrete inputs used by witnesses and counterexamples. -/

/-- A seed category object, as a prior run would have produced it. -/
def cxSeedCat : CResult := ⟨"A", [mkPaper "p0"], "sA"⟩

/-- The two papers classified by the failing two-batch run. -/
def cxPapers : List Paper := [mkPaper "p1", mkPaper "p2"]

/-- A Completion Client whose first answer assigns paper 1 to the
existing category `A` and whose second answer has no JSON at all. -/
def cxRespond : Nat → Except String String := fun i =>
  if i = 0 then
    .ok "\x7b\"categories\": [\x7b\"name\": \"A\", \"paper_indices\": [1]\x7d]\x7d"
  else
    .ok "no answer here"

/-- One parsed entry naming category `A` with batch index 1. -/
def cxEntryA : Json :=
  .obj [("name", .str "A"), ("paper_indices", .arr [.num 1])]

/-- One parsed entry naming category `B` with the same batch index 1. -/
def cxEntryB : Json :=
  .obj [("name", .str "B"), ("paper_indices", .arr [.num 1])]

/-- A one-batch run whose response references batch index 1 from two
different category entries. -/
def cxDupRuns : List (List Paper × List Json) :=
  [([mkPaper "p1"], [cxEntryA, cxEntryB])]

/-- A one-batch run whose response references batch index 1 exactly
once. -/
def w7Runs : List (List Paper × List Json) :=
  [([mkPaper "p1"], [cxEntryA])]

/-- Three concrete papers to be planned into batches of two. -/
def w4Papers : List Paper := [mkPaper "p1", mkPaper "p2", mkPaper "p3"]

/-- The plan the batch planner produces for `w4Papers` at batch size 2. -/
def w4Chunks : List (List Paper) :=
  [[mkPaper "p1", mkPaper "p2"], [mkPaper "p3"]]

/-! Helper lemmas about the merge engine. -/

theorem mergeOne_eq_mergeSpecStep (st : List CResult) (bc : CResult) :
    mergeOne st bc = mergeSpecStep st (bc.category, bc.papers, bc.summary) := by
  induction st with
  | nil => rfl
  | cons c cs ih =>
    by_cases h : c.category = bc.category
    · simp [mergeOne, mergeSpecStep, List.findIdx?_cons, h]
    · simp only [mergeOne, mergeSpecStep, List.findIdx?_cons, List.findIdx?_succ,
        h, decide_False, if_false] at ih ⊢
      rcases hfi : cs.findIdx? (fun c => c.category = bc.category) with _ | i
      · simp only [hfi, Option.map_none'] at ih ⊢
        simp [h, ih]
      · simp only [hfi, Option.map_some'] at ih ⊢
        rcases hg : cs.get? i with _ | c' <;>
        · rw [List.get?_eq_getElem?] at hg
          simp [hg, ih, List.get?_cons_succ]

theorem mergeResults_cons (st : List CResult) (bc : CResult) (ts : List CResult) :
    mergeResults st (bc :: ts) = mergeResults (mergeOne st bc) ts := rfl

theorem mergeOne_of_not_mem (st : List CResult) (bc : CResult)
    (h : bc.category ∉ st.map CResult.category) : mergeOne st bc = st ++ [bc] := by
  induction st with
  | nil => rfl
  | cons c cs ih =>
    simp only [List.map_cons, List.mem_cons] at h
    push_neg at h
    simp only [mergeOne]
    rw [if_neg (fun hc => h.1 hc.symm), ih h.2]
    rfl

theorem mergeOne_map {β : Type} (f : CResult → β)
    (hf : ∀ c ps, f { c with papers := ps } = f c) (st : List CResult) (bc : CResult) :
    (mergeOne st bc).map f =
      if bc.category ∈ st.map CResult.category then st.map f
      else st.map f ++ [f bc] := by
  induction st with
  | nil => simp [mergeOne]
  | cons c cs ih =>
    by_cases h : c.category = bc.category
    · simp only [mergeOne, if_pos h, List.map_cons, List.mem_cons]
      rw [if_pos (Or.inl h.symm), hf]
    · simp only [mergeOne, if_neg h, List.map_cons, List.mem_cons, ih]
      by_cases hm : bc.category ∈ cs.map CResult.category
      · simp [hm, Ne.symm h]
      · simp [hm, Ne.symm h]

theorem mergeResults_map_append {β : Type} (f : CResult → β)
    (hf : ∀ c ps, f { c with papers := ps } = f c) :
    ∀ (ts st : List CResult), ∃ suf, (mergeResults st ts).map f = st.map f ++ suf
  | [], st => ⟨[], by simp [mergeResults]⟩
  | bc :: ts, st => by
    rw [mergeResults_cons]
    obtain ⟨suf, hsuf⟩ := mergeResults_map_append f hf ts (mergeOne st bc)
    rw [hsuf, mergeOne_map f hf]
    by_cases hm : bc.category ∈ st.map CResult.category
    · exact ⟨suf, by simp [hm]⟩
    · exact ⟨[f bc] ++ suf, by simp [hm]⟩

theorem mergeOne_names_nodup (st : List CResult) (bc : CResult)
    (h : (st.map CResult.category).Nodup) :
    ((mergeOne st bc).map CResult.category).Nodup := by
  rw [mergeOne_map CResult.category (fun _ _ => rfl)]
  by_cases hm : bc.category ∈ st.map CResult.category
  · simpa [hm] using h
  · simp [hm, List.nodup_append, h, hm]

theorem mergeResults_names_nodup :
    ∀ (ts st : List CResult), (st.map CResult.category).Nodup →
      ((mergeResults st ts).map CResult.category).Nodup
  | [], st, h => h
  | bc :: ts, st, h => by
    rw [mergeResults_cons]
    exact mergeResults_names_nodup ts (mergeOne st bc) (mergeOne_names_nodup st bc h)

theorem memCount_mergeOne (p : Paper) (st : List CResult) (bc : CResult) :
    memCount p (mergeOne st bc) = memCount p st + bc.papers.count p := by
  induction st with
  | nil => simp [mergeOne, memCount]
  | cons c cs ih =>
    by_cases h : c.category = bc.category
    · simp [mergeOne, h, memCount, List.count_append]
      omega
    · simp only [mergeOne, if_neg h, List.map_cons, List.flatten_cons, memCount,
        List.count_append] at ih ⊢
      omega

theorem memCount_mergeResults (p : Paper) :
    ∀ (ts st : List CResult),
      memCount p (mergeResults st ts) =
        memCount p st + (ts.map CResult.papers).flatten.count p
  | [], st => by simp [mergeResults]
  | bc :: ts, st => by
    rw [mergeResults_cons, memCount_mergeResults p ts (mergeOne st bc),
      memCount_mergeOne]
    simp [List.count_append]
    omega

/-! Helper lemmas about the response parser. -/

theorem getName_err (fields : List (String × Json)) (e : PErr)
    (h : getName fields = .error e) : e = .illTyped := by
  unfold getName at h
  split at h
  · exact Except.noConfusion h
  · exact Except.noConfusion h
  · injection h with h; exact h.symm

theorem getIndices_err (fields : List (String × Json)) (e : PErr)
    (h : getIndices fields = .error e) : e = .illTyped := by
  unfold getIndices at h
  split at h
  · exact Except.noConfusion h
  · exact Except.noConfusion h
  · injection h with h; exact h.symm

theorem getSummary_err (fields : List (String × Json)) (e : PErr)
    (h : getSummary fields = .error e) : e = .illTyped := by
  unfold getSummary at h
  split at h
  · exact Except.noConfusion h
  · exact Except.noConfusion h
  · injection h with h; exact h.symm

theorem selectPapers_err :
    ∀ (js : List Json) (papers : List Paper) (e : PErr),
      selectPapers js papers = .error e → e = .illTyped := by
  intro js
  induction js with
  | nil => intro papers e h; exact Except.noConfusion h
  | cons j js ih =>
    intro papers e h
    simp only [selectPapers] at h
    split at h
    · split at h
      · split at h <;> exact Except.noConfusion h
      · next e' heq =>
          injection h with h
          exact h ▸ ih papers e' heq
    · injection h with h; exact h.symm

theorem parseEntry_err (cat : Json) (papers : List Paper) (e : PErr)
    (h : parseEntry cat papers = .error e) : e = .illTyped := by
  rcases cat with _ | b | n | s | xs | fields <;> simp only [parseEntry] at h <;>
    try (injection h with h; exact h.symm)
  split at h
  · next e' heq => injection h with h; exact h ▸ getName_err fields e' heq
  · split at h
    · next e' heq => injection h with h; exact h ▸ getIndices_err fields e' heq
    · split at h
      · next e' heq => injection h with h; exact h ▸ getSummary_err fields e' heq
      · split at h
        · next e' heq =>
            injection h with h
            exact h ▸ selectPapers_err _ papers e' heq
        · exact Except.noConfusion h

theorem parseEntries_err :
    ∀ (cats : List Json) (papers : List Paper) (e : PErr),
      parseEntries cats papers = .error e → e = .illTyped := by
  intro cats
  induction cats with
  | nil => intro papers e h; exact Except.noConfusion h
  | cons c cs ih =>
    intro papers e h
    simp only [parseEntries] at h
    split at h
    · next e' heq => injection h with h; exact h ▸ parseEntry_err c papers e' heq
    · split at h
      · next e' heq => injection h with h; exact h ▸ ih papers e' heq
      · exact Except.noConfusion h

theorem selectPapers_nums (idxs : List Int) (papers : List Paper) :
    selectPapers (idxs.map Json.num) papers =
      .ok (idxs.filterMap (fun i =>
        if 0 < i ∧ i ≤ (papers.length : Int) then papers.get? (i - 1).toNat
        else none)) := by
  induction idxs with
  | nil => rfl
  | cons i idxs ih =>
    simp only [List.map_cons, selectPapers, jIdxInt, ih, List.filterMap_cons]
    by_cases h : 0 < i ∧ i ≤ (papers.length : Int)
    · rw [dif_pos h, if_pos h]
      have hlt : (i - 1).toNat < papers.length := by omega
      rw [List.get?_eq_get hlt]
    · rw [dif_neg h, if_neg h]

/-! Helper lemmas about the batch planner. -/

theorem fdivToNat (b : Int) (hb : 0 < b) (n : Nat) :
    (((n : Int) + b - 1).fdiv b).toNat = (n + b.toNat - 1) / b.toNat := by
  lift b to Nat using hb.le with k hk
  have h1 : ((n : Int) + k - 1) = ((n + k - 1 : Nat) : Int) := by
    push_cast [Nat.cast_sub (by omega : 1 ≤ n + k)]
    ring
  rw [h1, Int.fdiv_eq_ediv _ (by positivity), ← Int.ofNat_ediv, Int.toNat_ofNat]
  simp

theorem take_drop_chunk {α : Type} (l : List α) (k i : Nat) :
    ((l.take ((min ((i * k : Nat) + k : Int) (l.length : Int)).toNat)).drop
      ((min ((i * k : Nat) : Int) (l.length : Int)).toNat)) =
      (l.drop (i * k)).take k := by
  have hA : (min ((i * k : Nat) : Int) (l.length : Int)).toNat = min (i * k) l.length := by
    rw [← Nat.cast_min]; exact Int.toNat_ofNat _
  have hB : (min ((i * k : Nat) + k : Int) (l.length : Int)).toNat
      = min (i * k + k) l.length := by
    rw [show ((i * k : Nat) + k : Int) = ((i * k + k : Nat) : Int) by push_cast; ring,
      ← Nat.cast_min]
    exact Int.toNat_ofNat _
  rw [hA, hB, List.drop_take]
  by_cases h : i * k ≤ l.length
  · rw [min_eq_left h]
    rcases le_or_lt (i * k + k) l.length with h2 | h2
    · rw [min_eq_left h2]
      have hkk : i * k + k - i * k = k := by omega
      rw [hkk]
    · rw [min_eq_right h2.le]
      rw [List.take_eq_take]
      simp [List.length_drop]
      omega
  · push_neg at h
    rw [min_eq_right h.le, min_eq_right (by omega : l.length ≤ i * k + k)]
    simp
    omega

theorem chunksJoin {α : Type} (k : Nat) (hk : 0 < k) :
    ∀ (c : Nat) (l : List α), c = (l.length + k - 1) / k →
      ((List.range c).map (fun i => (l.drop (i * k)).take k)).flatten = l
  | 0, l, h => by
    have hlen : l.length = 0 := by
      by_contra hne
      have h1 : 1 ≤ (l.length + k - 1) / k := by
        rw [Nat.le_div_iff_mul_le hk]; omega
      omega
    simp [List.eq_nil_of_length_eq_zero hlen]
  | c + 1, l, h => by
    have hlen : 1 ≤ l.length := by
      by_contra hne
      push_neg at hne
      have h0 : l.length = 0 := by omega
      rw [h0] at h
      have hz : (0 + k - 1) / k = 0 := Nat.div_eq_of_lt (by omega)
      omega
    have hc : c = (l.length - 1) / k := by
      have hrw : l.length + k - 1 = (l.length - 1) + k := by omega
      rw [hrw, Nat.add_div_right _ hk] at h
      omega
    have hc' : c = ((l.drop k).length + k - 1) / k := by
      rw [List.length_drop]
      rcases le_or_lt l.length k with h2 | h2
      · have hz : l.length - k = 0 := by omega
        rw [hz]
        rw [hc, Nat.div_eq_of_lt (by omega), Nat.div_eq_of_lt (by omega)]
      · have hrw : l.length - k + k - 1 = l.length - 1 := by omega
        rw [hrw, hc]
    rw [List.range_succ_eq_map]
    simp only [List.map_cons, List.map_map, List.flatten_cons, Nat.zero_mul,
      List.drop_zero]
    have hcomp : ((fun i => (l.drop (i * k)).take k) ∘ Nat.succ) =
        (fun i => ((l.drop k).drop (i * k)).take k) := by
      funext i
      simp only [Function.comp]
      rw [List.drop_drop]
      congr 2
      simp [Nat.succ_mul]
      omega
    rw [hcomp, chunksJoin k hk c (l.drop k) hc']
    exact List.take_append_drop k l

theorem pySlice_chunk {α : Type} (l : List α) (k i : Nat) :
    pySlice l ((i * k : Nat) : Int)
        (min (((i * k : Nat) : Int) + ((k : Nat) : Int)) ((l.length : Int))) =
      (l.drop (i * k)).take k := by
  have key := take_drop_chunk l k i
  simp only [pySlice]
  rw [if_neg (not_lt.mpr (by positivity : (0 : Int) ≤ ((i * k : Nat) : Int)))]
  rw [if_neg (not_lt.mpr (le_inf (by positivity) (by positivity)))]
  rw [inf_assoc, inf_idem]
  exact key

theorem batchPlan_pos_eq (papers : List Paper) (b : Int) (hb : 0 < b) :
    batchPlan papers b =
      .ok ((List.range ((papers.length + b.toNat - 1) / b.toNat)).map
        (fun i => (papers.drop (i * b.toNat)).take b.toNat)) := by
  unfold batchPlan
  rw [if_neg (by omega : ¬ b = 0)]
  refine congrArg Except.ok ?_
  rw [fdivToNat b hb papers.length]
  refine List.map_congr_left (fun i _ => ?_)
  simp only [Int.ofNat_eq_coe]
  rw [show ((i : Int) * b) = ((i * b.toNat : Nat) : Int) by
      push_cast [Int.toNat_of_nonneg hb.le]; ring]
  rw [show (((i * b.toNat : Nat) : Int) + b) = ((i * b.toNat : Nat) : Int) + ((b.toNat : Nat) : Int) by
      push_cast [Int.toNat_of_nonneg hb.le]; ring]
  exact pySlice_chunk papers b.toNat i

/-! Helper lemmas about `is_existing` insensitivity. -/

theorem foldl_lookup_subst (v : Json) (k : String) (hk : ¬ k = "is_existing") :
    ∀ (fields : List (String × Json)) (acc : Option Json),
      ((fields.map (fun kv => if kv.1 = "is_existing" then (kv.1, v) else kv)).foldl
        (fun acc kv => if kv.1 = k then some kv.2 else acc) acc)
        = fields.foldl (fun acc kv => if kv.1 = k then some kv.2 else acc) acc
  | [], _ => rfl
  | kv :: fields, acc => by
    simp only [List.map_cons, List.foldl_cons]
    by_cases h : kv.1 = "is_existing"
    · rw [if_pos h]
      have hne : ¬ kv.1 = k := fun hh => hk (hh ▸ h)
      rw [if_neg hne]
      rw [show (if kv.1 = k then some kv.2 else acc) = acc from if_neg hne]
      exact foldl_lookup_subst v k hk fields acc
    · rw [if_neg h]
      exact foldl_lookup_subst v k hk fields (if kv.1 = k then some kv.2 else acc)

theorem parseEntry_setIsExisting (v : Json) (c : Json) (papers : List Paper) :
    parseEntry (setIsExisting v c) papers = parseEntry c papers := by
  rcases c with _ | b | n | s | xs | fields <;> try rfl
  have hn := foldl_lookup_subst v "name" (by decide) fields none
  have hi := foldl_lookup_subst v "paper_indices" (by decide) fields none
  have hs := foldl_lookup_subst v "summary" (by decide) fields none
  simp only [setIsExisting, parseEntry, getName, getIndices, getSummary, jGet, hn, hi, hs]

theorem parseEntries_alter (f : Nat → Json) :
    ∀ (cats : List Json) (papers : List Paper),
      parseEntries (alterIsExisting f cats) papers = parseEntries cats papers := by
  intro cats
  induction cats generalizing f with
  | nil => intro papers; rfl
  | cons c cs ih =>
    intro papers
    simp only [alterIsExisting, parseEntries, parseEntry_setIsExisting, ih]

/-! Helper lemmas about the engine composition. -/

theorem engineRun_memCount (p : Paper) :
    ∀ (runs : List (List Paper × List Json)) (state final : List CResult),
      engineRun state runs = .ok final →
      memCount p final = memCount p state + assignedCount p runs
  | [], state, final, h => by
    simp only [engineRun] at h
    injection h with h
    simp [← h, assignedCount]
  | (batch, cats) :: rest, state, final, h => by
    simp only [engineRun] at h
    rcases hp : parseEntries cats batch with e | rs
    · rw [hp] at h; exact Except.noConfusion h
    · rw [hp] at h
      have ih := engineRun_memCount p rest (mergeResults state rs) final h
      rw [ih, memCount_mergeResults]
      simp only [assignedCount, List.map_cons, List.sum_cons, refCount, hp]
      omega

theorem engineRun_nodup :
    ∀ (runs : List (List Paper × List Json)) (state final : List CResult),
      engineRun state runs = .ok final →
      (state.map CResult.category).Nodup → (final.map CResult.category).Nodup
  | [], state, final, h, hnd => by
    simp only [engineRun] at h
    injection h with h
    exact h ▸ hnd
  | (batch, cats) :: rest, state, final, h, hnd => by
    simp only [engineRun] at h
    rcases hp : parseEntries cats batch with e | rs
    · rw [hp] at h; exact Except.noConfusion h
    · rw [hp] at h
      exact engineRun_nodup rest (mergeResults state rs) final h
        (mergeResults_names_nodup rs state hnd)

/-! Helper lemma about the orchestrator's abort behaviour. -/

theorem classifyLoop_abort (respond : Nat → Except String String) :
    ∀ (pre : List (Nat × List Paper)) (idx : Nat) (batch : List Paper)
      (post : List (Nat × List Paper)) (store : Store) (acc : List Nat)
      (err : BatchFail),
      (∀ pr ∈ pre, batchOk respond pr) →
      failsAt respond idx batch err →
      (classifyLoop respond (pre ++ (idx, batch) :: post) store acc).2
        = .error (toRunErr idx err)
  | [], idx, batch, post, store, acc, err, _, hfail => by
    rcases err with msg | e
    · simp only [failsAt] at hfail
      simp [classifyLoop, hfail, toRunErr]
    · obtain ⟨text, hresp, hparse⟩ := hfail
      simp [classifyLoop, hresp, hparse, toRunErr]
  | pr :: pre, idx, batch, post, store, acc, err, hpre, hfail => by
    obtain ⟨text, rs, hresp, hparse⟩ := hpre pr (List.mem_cons_self _ _)
    rcases pr with ⟨i, b⟩
    simp only [List.cons_append, classifyLoop, hresp, hparse]
    exact classifyLoop_abort respond pre idx batch post _ _ err
      (fun q hq => hpre q (List.mem_cons_of_mem _ hq)) hfail

/-! The claims. -/

/-- Claim C1: the merge operation iterates the batch tuples in order; for
each it scans the accumulated Categories in accumulation order for an
exact, case-sensitive name match; on the first match it appends the
tuple's records to that Category's members in order; with no match it
appends a new Category built from the tuple's name, records and summary
to the end of the state.  In particular merging `[("A",[p1]),("B",[p2])]`
then `[("A",[p3])]` into the empty state yields exactly one "A" with
members `[p1, p3]` and one "B" with members `[p2]`. -/
theorem claim1_merge_algorithm :
    (∀ (st batch : List CResult),
      mergeResults st batch =
        mergeSpec st (batch.map (fun c => (c.category, c.papers, c.summary)))) ∧
    mergeResults
        (mergeResults [] [⟨"A", [mkPaper "p1"], "sA"⟩, ⟨"B", [mkPaper "p2"], "sB"⟩])
        [⟨"A", [mkPaper "p3"], "sA2"⟩]
      = [⟨"A", [mkPaper "p1", mkPaper "p3"], "sA"⟩, ⟨"B", [mkPaper "p2"], "sB"⟩] := by
  constructor
  · intro st batch
    induction batch generalizing st with
    | nil => rfl
    | cons c cs ih =>
      simp only [mergeResults, mergeSpec, List.map_cons, List.foldl_cons] at ih ⊢
      rw [mergeOne_eq_mergeSpecStep]
      exact ih _
  · rfl

/-- Claim C2 (amended): on the first failing batch — a Completion Client
error, or a Parser error on the returned text — the run aborts at once
and propagates an error carrying that batch's index; the result list is
not produced.  (The original claim's further assertion that the
caller-supplied seed state is left unchanged on failure is refuted
separately by a concrete run.) -/
theorem claim2_failfast_amended :
    ∀ (respond : Nat → Except String String) (pre : List (Nat × List Paper))
      (idx : Nat) (batch : List Paper) (post : List (Nat × List Paper))
      (store : Store) (acc : List Nat) (err : BatchFail),
      (∀ pr ∈ pre, batchOk respond pr) →
      failsAt respond idx batch err →
      (classifyLoop respond (pre ++ (idx, batch) :: post) store acc).2
        = .error (toRunErr idx err) :=
  fun respond pre idx batch post store acc err h1 h2 =>
    classifyLoop_abort respond pre idx batch post store acc err h1 h2

/-- Witness for claim C2's amended theorem at a concrete failing batch. -/
theorem claim2_failfast_amended_witness :
    (classifyLoop (fun _ => Except.ok "no answer here")
        ([] ++ (0, [mkPaper "p1"]) :: []) [] []).2
      = .error (toRunErr 0 (.parseF .noJson)) :=
  claim2_failfast_amended (fun _ => Except.ok "no answer here") [] 0 [mkPaper "p1"]
    [] [] [] (.parseF .noJson) (by simp) ⟨"no answer here", rfl, rfl⟩

/-- Counterexample to claim C2 as stated: with a seed category "A", a
first batch that merges a new paper into "A", and a second batch whose
completion has no JSON, the run fails with the batch index attached, yet
the seed category object now holds the extra paper — the caller-supplied
seed state is NOT left unchanged on failure. -/
theorem claim2_counterexample :
    (classifyPapers cxRespond cxPapers 1 [cxSeedCat] [0]).2
      = .error (.parseFail 1 .noJson) ∧
    (classifyPapers cxRespond cxPapers 1 [cxSeedCat] [0]).1
      = [⟨"A", [mkPaper "p0", mkPaper "p1"], "sA"⟩] ∧
    ¬ ([⟨"A", [mkPaper "p0", mkPaper "p1"], "sA"⟩] : List CResult) = [cxSeedCat] :=
  ⟨rfl, rfl, by decide⟩

/-- Claim C3 (amended): the response parser locates the greedy span from
the first opening brace to the last closing brace of the completion text
(not the first balanced substring) and parses exactly that span; it
fails with the no-JSON `ParseError` iff no such span exists, and with
the bad-JSON `ParseError` iff the span is not valid JSON. -/
theorem claim3_parse_amended :
    ∀ (s : String) (papers : List Paper),
      (parseClassificationResult s papers = .error .noJson ↔
        extractJsonGreedy s = none) ∧
      (parseClassificationResult s papers = .error .badJson ↔
        ∃ t, extractJsonGreedy s = some t ∧ jsonParse t = none) := by
  intro s papers
  unfold parseClassificationResult
  rcases hx : extractJsonGreedy s with _ | t
  · simp
  · rcases hj : jsonParse t with _ | j
    · simp [hj]
    · rcases j with _ | b | n | str | xs | fields
      · simp [hj]
      · simp [hj]
      · simp [hj]
      · simp [hj]
      · simp [hj]
      · rcases hc : jGet fields "categories" with _ | cj
        · simp [hc, parseEntries, hj]
        · rcases cj with _ | b | n | str | xs | fs
          · simp [hc, hj]
          · simp [hc, hj]
          · simp [hc, hj]
          · simp [hc, hj]
          · rcases hp : parseEntries xs papers with e | rs
            · have he := parseEntries_err xs papers e hp
              subst he
              simp [hc, hp, hj]
            · simp [hc, hp, hj]
          · simp [hc, hj]

/-- Witness for claim C3's amended theorem: a text with no braces fails
with the no-JSON error, so the located span does not exist. -/
theorem claim3_parse_amended_witness : extractJsonGreedy "x" = none :=
  ((claim3_parse_amended "x" []).1).mp rfl

/-- Counterexample to claim C3 as stated: in the completion text
consisting of an empty object followed by one more closing brace, the
first balanced brace-matched substring is the empty object, which is
valid JSON — the claimed contract would parse it and succeed — but the
code's greedy span is the whole text, which is invalid JSON, so the
parser aborts with a `ParseError`. -/
theorem claim3_counterexample :
    extractBalancedSpec "\x7b\x7d\x7d" = some "\x7b\x7d" ∧
    jsonParse "\x7b\x7d" = some (Json.obj []) ∧
    parseClassificationResult "\x7b\x7d\x7d" [] = .error .badJson :=
  ⟨rfl, rfl, rfl⟩

/-- Claim C4 (amended): for every positive batch size `b` the planner
produces `ceil(n / b)` contiguous, non-overlapping, order-preserving
slices whose concatenation is the original sequence, all of length `b`
except possibly the final one; but the planner fails if and only if
`b = 0` — a negative batch size does NOT fail. -/
theorem claim4_planner_amended :
    ∀ (papers : List Paper) (b : Int) (i : Nat) (cs : List (List Paper)),
      ((batchPlan papers b).isOk = false ↔ b = 0) ∧
      (0 < b → batchPlan papers b = .ok cs →
        (cs.flatten = papers ∧
         cs.length = (papers.length + b.toNat - 1) / b.toNat ∧
         (i < cs.length →
           cs.get? i = some ((papers.drop (i * b.toNat)).take b.toNat)) ∧
         (i + 1 < cs.length →
           ((papers.drop (i * b.toNat)).take b.toNat).length = b.toNat))) := by
  intro papers b i cs
  constructor
  · by_cases hb : b = 0
    · simp [batchPlan, hb, Except.isOk, Except.toBool]
    · simp [batchPlan, hb, Except.isOk, Except.toBool]
  · intro hb hcs
    rw [batchPlan_pos_eq papers b hb] at hcs
    injection hcs with hcs
    have hk : 0 < b.toNat := by omega
    subst hcs
    refine ⟨chunksJoin b.toNat hk _ papers rfl, by simp, ?_, ?_⟩
    · intro hi
      simp only [List.length_map, List.length_range] at hi
      rw [List.get?_map, List.get?_range hi]
      rfl
    · intro hi
      simp only [List.length_map, List.length_range] at hi
      have hmul : (i + 2) * b.toNat ≤ papers.length + b.toNat - 1 := by
        rw [← Nat.le_div_iff_mul_le hk]
        omega
      have hexp : (i + 2) * b.toNat = i * b.toNat + 2 * b.toNat := by ring
      rw [List.length_take, List.length_drop]
      omega

/-- Witness for claim C4's amended theorem: three papers at batch size 2
give the two chunks `[[p1, p2], [p3]]`. -/
theorem claim4_planner_amended_witness :
    w4Chunks.flatten = w4Papers ∧
    w4Chunks.length = (w4Papers.length + (2 : Int).toNat - 1) / (2 : Int).toNat ∧
    w4Chunks.get? 0 = some ((w4Papers.drop (0 * (2 : Int).toNat)).take (2 : Int).toNat) ∧
    ((w4Papers.drop (0 * (2 : Int).toNat)).take (2 : Int).toNat).length
      = (2 : Int).toNat := by
  have h := (claim4_planner_amended w4Papers 2 0 w4Chunks).2 (by decide) (by rfl)
  exact ⟨h.1, h.2.1, h.2.2.1 (by decide), h.2.2.2 (by decide)⟩

/-- Counterexample to claim C4 as stated: the claim says the planner
fails for every batch size `b ≤ 0`, but at `b = -5` with one paper the
planner returns successfully, producing a single empty batch (Python's
floor division makes the batch count 1 and the negative slice bound
empties the slice). -/
theorem claim4_counterexample :
    (-5 : Int) ≤ 0 ∧ batchPlan [mkPaper "p"] (-5) = .ok [[]] :=
  ⟨by decide, rfl⟩

/-- Claim C5: in a parsed category entry, every integer index `i` in
`paper_indices` with `0 < i ≤ len(batch)` is mapped to the batch record
at position `i - 1`, every index with `i ≤ 0` or `i > len(batch)` is
silently dropped without an error, and the surviving records keep the
order of their indices. -/
theorem claim5_index_leniency :
    ∀ (idxs : List Int) (papers : List Paper),
      selectPapers (idxs.map Json.num) papers =
        .ok (idxs.filterMap (fun i =>
          if 0 < i ∧ i ≤ (papers.length : Int) then papers.get? (i - 1).toNat
          else none)) :=
  fun idxs papers => selectPapers_nums idxs papers

/-- Claim C6: a Category's description is set exactly once, at creation
(a tuple with an unmatched name is appended as a new category carrying
its summary), and every later merge leaves the name and summary of every
pre-existing category position unchanged, whatever summaries the later
tuples carry. -/
theorem claim6_description_immutable :
    ∀ (st batch : List CResult) (bc : CResult),
      (((mergeResults st batch).map (fun c => (c.category, c.summary))).take st.length
        = st.map (fun c => (c.category, c.summary))) ∧
      (bc.category ∉ st.map CResult.category → mergeOne st bc = st ++ [bc]) := by
  intro st batch bc
  constructor
  · obtain ⟨suf, hsuf⟩ :=
      mergeResults_map_append (fun c => (c.category, c.summary)) (fun _ _ => rfl) batch st
    rw [hsuf]
    have hlen : (st.map (fun c => (c.category, c.summary))).length = st.length :=
      List.length_map _ _
    rw [← hlen]
    exact List.take_left _ _
  · exact mergeOne_of_not_mem st bc

/-- Witness for claim C6 at a concrete seed category and a new name. -/
theorem claim6_description_immutable_witness :
    (((mergeResults [cxSeedCat] []).map (fun c => (c.category, c.summary))).take
        ([cxSeedCat] : List CResult).length
      = ([cxSeedCat] : List CResult).map (fun c => (c.category, c.summary))) ∧
    mergeOne [cxSeedCat] ⟨"B", [], "sB"⟩ = [cxSeedCat] ++ [⟨"B", [], "sB"⟩] :=
  ⟨(claim6_description_immutable [cxSeedCat] [] ⟨"B", [], "sB"⟩).1,
   (claim6_description_immutable [cxSeedCat] [] ⟨"B", [], "sB"⟩).2 (by decide)⟩

/-- Claim C7 (amended): over a run of the parse-then-merge engine from a
state with pairwise distinct category names, every intermediate and the
final state keep the names pairwise distinct; and, provided a record is
referenced by in-range indices exactly once across the whole run and is
absent from the seed's members, it ends up in the members of exactly one
Category, exactly once.  (Without the single-reference hypothesis the
original claim fails on duplicated references.) -/
theorem claim7_partition_amended :
    ∀ (state final mid : List CResult) (runs : List (List Paper × List Json))
      (p : Paper) (k : Nat),
      (state.map CResult.category).Nodup →
      engineRun state runs = .ok final →
      engineRun state (runs.take k) = .ok mid →
      memCount p state = 0 →
      assignedCount p runs = 1 →
      ((mid.map CResult.category).Nodup ∧ (final.map CResult.category).Nodup ∧
        memCount p final = 1) := by
  intro state final mid runs p k hnd hfull htake h0 h1
  refine ⟨engineRun_nodup _ _ _ htake hnd, engineRun_nodup _ _ _ hfull hnd, ?_⟩
  rw [engineRun_memCount p runs state final hfull, h0, h1]

/-- Witness for claim C7's amended theorem on a one-batch run assigning
one paper to one new category. -/
theorem claim7_partition_amended_witness :
    ((([⟨"A", [mkPaper "p1"], ""⟩] : List CResult).map CResult.category).Nodup ∧
     (([⟨"A", [mkPaper "p1"], ""⟩] : List CResult).map CResult.category).Nodup ∧
     memCount (mkPaper "p1") [⟨"A", [mkPaper "p1"], ""⟩] = 1) :=
  claim7_partition_amended [] [⟨"A", [mkPaper "p1"], ""⟩] [⟨"A", [mkPaper "p1"], ""⟩]
    w7Runs (mkPaper "p1") 1 (by simp) (by rfl) (by rfl) (by rfl) (by rfl)

/-- Counterexample to claim C7 as stated: one batch whose parsed
response references batch index 1 from two different category entries
puts the same record into two categories — it does not appear in the
members of exactly one Category. -/
theorem claim7_counterexample :
    engineRun [] cxDupRuns
      = .ok [⟨"A", [mkPaper "p1"], ""⟩, ⟨"B", [mkPaper "p1"], ""⟩] ∧
    (([⟨"A", [mkPaper "p1"], ""⟩, ⟨"B", [mkPaper "p1"], ""⟩] : List CResult).filter
      (fun c => decide (mkPaper "p1" ∈ c.papers))).length = 2 :=
  ⟨rfl, by decide⟩

/-- Claim C8: the `is_existing` flag is only a hint and never overrides
name matching — altering every entry's `is_existing` value arbitrarily
changes neither the parsed batch result nor the state obtained by
merging it. -/
theorem claim8_is_existing_hint_only :
    ∀ (cats : List Json) (papers : List Paper) (f : Nat → Json) (st : List CResult),
      Except.map (mergeResults st) (parseEntries (alterIsExisting f cats) papers)
        = Except.map (mergeResults st) (parseEntries cats papers) := by
  intro cats papers f st
  rw [parseEntries_alter]

/-- Claim C9 (amended): the parser resolves `name` to the placeholder
only when the field is absent — a present name is kept verbatim, even
when it is the empty string — resolves `paper_indices` to the empty list
when absent and `summary` to the empty string when absent, and emits the
entries in their order of appearance. -/
theorem claim9_defaults_amended :
    ∀ (fields : List (String × Json)) (c : Json) (cs : List Json)
      (papers : List Paper),
      (jGet fields "name" = none → getName fields = .ok "未命名类别") ∧
      (∀ (t : String), jGet fields "name" = some (.str t) → getName fields = .ok t) ∧
      (jGet fields "paper_indices" = none → getIndices fields = .ok []) ∧
      (jGet fields "summary" = none → getSummary fields = .ok "") ∧
      (parseEntries (c :: cs) papers =
        match parseEntry c papers with
        | .error e => .error e
        | .ok r =>
          match parseEntries cs papers with
          | .error e => .error e
          | .ok rs => .ok (r :: rs)) := by
  intro fields c cs papers
  refine ⟨?_, ?_, ?_, ?_, rfl⟩
  · intro h; simp [getName, h]
  · intro t h; simp [getName, h]
  · intro h; simp [getIndices, h]
  · intro h; simp [getSummary, h]

/-- Witness for claim C9's amended theorem: a present empty name is kept
as the empty string, and absent fields get their defaults. -/
theorem claim9_defaults_amended_witness :
    getName [("name", Json.str "")] = .ok "" ∧
    getName [] = .ok "未命名类别" ∧
    getIndices [] = .ok [] ∧
    getSummary [] = .ok "" :=
  ⟨(claim9_defaults_amended [("name", Json.str "")] .null [] []).2.1 "" rfl,
   (claim9_defaults_amended [] .null [] []).1 rfl,
   (claim9_defaults_amended [] .null [] []).2.2.1 rfl,
   (claim9_defaults_amended [] .null [] []).2.2.2.1 rfl⟩

/-- Counterexample to claim C9 as stated: an entry whose `name` field is
present but empty parses to a category named by the empty string, not by
the placeholder name — the claimed absent-or-empty defaulting does not
hold for the empty case. -/
theorem claim9_counterexample :
    parseEntry (.obj [("name", Json.str "")]) [] = .ok ⟨"", [], ""⟩ ∧
    ¬ ("" = "未命名类别") :=
  ⟨rfl, by decide⟩

/-- Claim C10: for the empty record sequence, `classify_papers` returns
the empty category list whatever the batch size, the backend and the
seed accumulated state — the seed is discarded rather than returned, no
backend call is made, and the store is untouched. -/
theorem claim10_empty_discards_seed :
    ∀ (respond : Nat → Except String String) (batchSize : Int)
      (store : Store) (seed : List Nat),
      classifyPapers respond [] batchSize store seed = (store, .ok []) := by
  intro respond batchSize store seed
  rfl
